import Mathlib

/-!
Verification development for `synthaser/figure.py`.

The `Figure` class holds a list of `Synthase` entities and a colour registry,
and renders them as an SVG document.  Pure functions are translated directly;
the mutation of `self.synthases` (in-place sorts) is made explicit by passing
lists, Python exceptions become `Except` / error-flag results, and SVG markup
strings are represented structurally (elements with their attribute values)
rather than as concatenated text.  Python `float` arithmetic is modelled by
exact rational arithmetic over `ℚ`, and `int(...)` truncation of non-negative
quotients by natural-number division.
-/

namespace Synthaser

/-- Modelled from the spec: a Domain annotation (`synthaser.models.Domain` is not
under `src/`): a type label and integer start and end positions. -/
structure Domain where
  type : String
  start : Nat
  «end» : Nat
deriving DecidableEq

/-- Modelled from the spec: an entity (`synthaser.models.Synthase` is not under
`src/`): identifier `header`, residue string `sequence`, ordered `domains`, and
derived classification labels `type` and `subtype` (their derivation lives in
the missing model module, so they are carried as plain attributes here). -/
structure Synthase where
  header : String
  sequence : String
  domains : List Domain
  type : String
  subtype : String
deriving DecidableEq

/-- Modelled from the spec: the derived sequence length of an entity. -/
def Synthase.sequence_length (s : Synthase) : Nat :=
  s.sequence.length

/-- Modelled from the spec: the architecture of an entity is the ordered
sequence of its domain type labels (glossary of the spec); its length is the
domain count used as the fallback sort key. -/
def Synthase.architecture (s : Synthase) : List String :=
  s.domains.map Domain.type

/-- Error kinds for the distinct `raise` sites of `figure.py` (the spec names
them `EmptySequenceError`, `InvalidWidthError`, `InvalidDomainError`,
`InvalidColourError`; `maxEmpty` is Python's `ValueError` from `max()` on an
empty sequence, and `missingColour` the `KeyError` from `self.colours[...]`). -/
inductive FigError where
  | emptySequence
  | invalidWidth
  | maxEmpty
  | invalidDomain
  | invalidColour
  | missingColour
deriving DecidableEq

/-- A Python `dict` with insertion order is modelled as an association list. -/
abbrev Colours : Type := List (String × String)

/-- Lookup in the colour registry (Python `d[k]` / `k in d`). -/
def lookupColour (colours : Colours) (k : String) : Option String :=
  (List.find? (fun p => p.1 = k) colours).map Prod.snd

/-- Overwrite the value stored for key `k` (Python `d[k] = v` for a present key;
the guard in `set_colours` ensures the key is present, and replacement never
changes the key sequence of the registry). -/
def updateColour (k v : String) : Colours → Colours
  | [] => []
  | (k', v') :: rest =>
    if k' = k then (k, v) :: rest else (k', v') :: updateColour k v rest

/-- `Figure.default_colours` from `figure.py`, in source order. -/
def default_colours : Colours :=
  [("ACP", "#084BC6"), ("KS", "#08B208"), ("SAT", "#808080"), ("KR", "#089E4B"),
   ("MT", "#00ff00"), ("ER", "#089E85"), ("AT", "#DC0404"), ("DH", "#B45F04"),
   ("PT", "#999900"), ("TE", "#750072"), ("TR", "#9933ff"), ("T", "#084BC6"),
   ("R", "#9933ff"), ("C", "#393989"), ("A", "#56157F")]

/-- The `Figure` class: a list of synthases plus a colour registry. -/
structure Figure where
  synthases : List Synthase
  colours : Colours

/-- `Figure.__init__` with no colour overrides: copy of the default registry. -/
def Figure.new (synthases : List Synthase) : Figure :=
  { synthases := synthases, colours := default_colours }

/-- One character of the regex class `[A-Fa-f0-9]`. -/
def isHexDigitChar (c : Char) : Bool :=
  (('0' ≤ c && c ≤ '9') || ('a' ≤ c && c ≤ 'f') || ('A' ≤ c && c ≤ 'F'))

/-- The strings matched by the body `#([A-Fa-f0-9]{6}|[A-Fa-f0-9]{3})` of the
regex in `_validate_colour`, as a character-list predicate. -/
def hexBody : List Char → Bool
  | [] => false
  | c :: rest => c = '#' && (rest.length = 6 || rest.length = 3) && rest.all isHexDigitChar

/-- `_validate_colour` from `figure.py`: `re.search` with the anchored pattern
`^#([A-Fa-f0-9]{6}|[A-Fa-f0-9]{3})$`.  Python's `$` (without `re.MULTILINE`)
matches at the end of the string or just before a single trailing newline, so
a valid body followed by one `'\n'` is also accepted. -/
def _validate_colour (s : String) : Bool :=
  hexBody s.data ||
    (s.data.getLast? = some '\n' && hexBody s.data.dropLast)

/-- `Figure.set_colours`, processing the override entries in insertion order.
Python mutates `self.colours` entry by entry and raises at the first bad entry,
so the model returns the registry state reached together with the error, if
any, that was raised. -/
def set_colours_run (colours : Colours) : List (String × String) → Colours × Option FigError
  | [] => (colours, none)
  | (k, v) :: rest =>
    if (lookupColour colours k).isNone then (colours, some .invalidDomain)
    else if _validate_colour v = false then (colours, some .invalidColour)
    else set_colours_run (updateColour k v colours) rest

/-- `Figure.set_colours` at the `Figure` level: the updated figure plus the
raised error, if any. -/
def Figure.set_colours (f : Figure) (overrides : List (String × String)) :
    Figure × Option FigError :=
  let r := set_colours_run f.colours overrides
  ({ f with colours := r.1 }, r.2)

/-- Python `max(synthases, key=attrgetter("sequence_length"))`: left fold that
keeps the earliest element whose key is maximal; `none` on an empty list
(where Python raises `ValueError`). -/
def pyMaxBySeqLen : List Synthase → Option Synthase
  | [] => none
  | s :: rest =>
    some (rest.foldl
      (fun best y => if y.sequence_length > best.sequence_length then y else best) s)

/-- `Figure.calculate_scale_factor`: guard the empty-sequence and negative-width
preconditions (in source order), then return `(width - 2) / largest.sequence_length`
as an exact rational. -/
def calculate_scale_factor (f : Figure) (width : ℤ) : Except FigError ℚ :=
  if f.synthases.any (fun s => s.sequence == "") then .error .emptySequence
  else if width < 0 then .error .invalidWidth
  else
    match pyMaxBySeqLen f.synthases with
    | none => .error .maxEmpty
    | some largest => .ok (((width : ℚ) - 2) / (largest.sequence_length : ℚ))

/-- Descending-by-key comparator used to model Python's stable
`list.sort(key=…, reverse=True)`. -/
def lenLE (key : Synthase → Nat) (a b : Synthase) : Bool :=
  key b ≤ key a

/-- `Figure.sort_synthases_by_length`: reverse (descending) stable sort by
sequence length, falling back to architecture length when any sequence is
empty. -/
def sort_synthases_by_length (l : List Synthase) : List Synthase :=
  if l.any (fun s => s.sequence == "") then
    l.mergeSort (lenLE (fun s => s.architecture.length))
  else
    l.mergeSort (lenLE Synthase.sequence_length)

/-- Ascending comparator on the composite key `(type, subtype)` used by
`self.synthases.sort(key=attrgetter("type", "subtype"))` (Python tuples of
strings compare lexicographically). -/
def tsLE (a b : Synthase) : Bool :=
  decide (a.type < b.type ∨ (a.type = b.type ∧ a.subtype ≤ b.subtype))

/-- `itertools.groupby(…, key=attrgetter("subtype"))`: split a list into
maximal contiguous runs of equal subtype, each tagged with its key. -/
def groupRuns : List Synthase → List (String × List Synthase)
  | [] => []
  | s :: rest =>
    match groupRuns rest with
    | [] => [(s.subtype, [s])]
    | (k, g) :: t =>
      if s.subtype = k then (k, s :: g) :: t
      else (s.subtype, [s]) :: (k, g) :: t

/-- `Figure.iterate_synthase_types`: length sort, then stable sort by
`(type, subtype)`, then group contiguously by subtype. -/
def iterate_synthase_types (l : List Synthase) : List (String × List Synthase) :=
  groupRuns ((sort_synthases_by_length l).mergeSort tsLE)

/-- One `<stop>` element of a linearGradient: percentage offset and colour. -/
structure Stop where
  offset : Nat
  colour : String
deriving DecidableEq

/-- A `<linearGradient>` element: its id (`header_doms`) and its stops. -/
structure Gradient where
  id : String
  stops : List Stop
deriving DecidableEq

/-- The four stops emitted for one domain by `generate_synthase_gradient`:
`int(start / L * 100)` and `int(end / L * 100)` are floor divisions of
non-negative quantities, i.e. `start * 100 / L` over `ℕ`; the colour is the
registry entry for the domain type (`KeyError` when absent). -/
def domainStops (colours : Colours) (L : Nat) (d : Domain) : Except FigError (List Stop) :=
  match lookupColour colours d.type with
  | none => .error .missingColour
  | some c =>
    .ok [⟨d.start * 100 / L, "white"⟩, ⟨d.start * 100 / L, c⟩,
         ⟨d.«end» * 100 / L, c⟩, ⟨d.«end» * 100 / L, "white"⟩]

/-- `Figure.generate_synthase_gradient`: guard the empty sequence, then emit
four stops per domain, in domain order, under the id `header_doms`. -/
def generate_synthase_gradient (f : Figure) (s : Synthase) : Except FigError Gradient :=
  if s.sequence == "" then .error .emptySequence
  else do
    let stops ← s.domains.mapM (domainStops f.colours s.sequence.length)
    .ok { id := s.header ++ "_doms", stops := stops.flatten }

/-- The `<text>`/`<polygon>` pair emitted for one synthase: the information
line (header, length in aa, architecture) and the five polygon vertices. -/
structure PolygonSVG where
  header : String
  info : String × Nat × List String
  points : List (ℚ × ℚ)
deriving DecidableEq

/-- `Figure.generate_synthase_polygon`: guard the empty sequence, then compute
the five arrow vertices `A`–`E` from the scaled length, `info_fsize * 0.9`
and `arrow_height`. -/
def generate_synthase_polygon (s : Synthase) (scale_factor : ℚ)
    (info_fsize : ℚ := 12) (arrow_height : ℚ := 14) : Except FigError PolygonSVG :=
  if s.sequence == "" then .error .emptySequence
  else
    let sequence_length : ℚ := (s.sequence.length : ℚ)
    let scaled_length := scale_factor * sequence_length
    let info_fsize_scaled := info_fsize * (9 / 10)
    let bottom_y := info_fsize_scaled + arrow_height
    let middle_y := info_fsize_scaled + arrow_height / 2
    .ok { header := s.header,
          info := (s.header, s.sequence.length, s.architecture),
          points := [(0, info_fsize_scaled), (scaled_length - 10, info_fsize_scaled),
                     (scaled_length, middle_y), (scaled_length - 10, bottom_y),
                     (0, bottom_y)] }

/-- The polygons of one subtype block, each with the vertical offset of its
enclosing `<g transform="translate(1, offset)">`; returns the polygons and the
cumulative offset, starting from the supplied one. -/
def polygon_block_go (scale_factor arrow_spacing arrow_height info_fsize : ℚ) :
    List Synthase → ℚ → Except FigError (List (ℚ × PolygonSVG) × ℚ)
  | [], offset => .ok ([], offset)
  | s :: rest, offset => do
    let poly ← generate_synthase_polygon s scale_factor info_fsize arrow_height
    let (ps, off) ← polygon_block_go scale_factor arrow_spacing arrow_height info_fsize
      rest (offset + info_fsize + arrow_height + 4 + arrow_spacing)
    .ok ((offset, poly) :: ps, off)

/-- One subtype block: its bold header text and its positioned polygons. -/
structure BlockSVG where
  subtype : String
  header_fsize : ℚ
  polygons : List (ℚ × PolygonSVG)
deriving DecidableEq

/-- `Figure.build_polygon_block`: header text, then one polygon per synthase,
offsets accumulating from `header_fsize`; returns the block and the total
offset consumed. -/
def build_polygon_block (subtype : String) (synthases : List Synthase)
    (scale_factor arrow_spacing arrow_height info_fsize header_fsize : ℚ) :
    Except FigError (BlockSVG × ℚ) := do
  let (ps, offset) ← polygon_block_go scale_factor arrow_spacing arrow_height info_fsize
    synthases header_fsize
  .ok ({ subtype := subtype, header_fsize := header_fsize, polygons := ps }, offset)

/-- The subtype blocks of `Figure.visualise`, each with the vertical offset of
its `<g transform="translate(0, offset)">`; returns the blocks and the final
accumulated offset. -/
def visualise_blocks (scale_factor arrow_spacing arrow_height info_fsize header_fsize
    block_spacing : ℚ) :
    List (String × List Synthase) → ℚ → Except FigError (List (ℚ × BlockSVG) × ℚ)
  | [], offset => .ok ([], offset)
  | (subtype, synthases) :: rest, offset => do
    let (block, height) ← build_polygon_block subtype synthases scale_factor
      arrow_spacing arrow_height info_fsize header_fsize
    let (bs, off) ← visualise_blocks scale_factor arrow_spacing arrow_height info_fsize
      header_fsize block_spacing rest (offset + height + block_spacing)
    .ok ((offset, block) :: bs, off)

/-- The root `<svg>` document: width and height attributes, the gradient
definitions, and the positioned subtype blocks. -/
structure SVG where
  width : ℤ
  height : ℚ
  gradients : List Gradient
  blocks : List (ℚ × BlockSVG)

/-- `Figure.visualise`: compute the scale factor, lay out the grouped blocks
from a top margin of 3, then emit a gradient per synthase in the sorted order
left in `self.synthases` by `iterate_synthase_types`, and wrap everything in
the `<svg>` container.  Any failure aborts with no document. -/
def visualise (f : Figure) (arrow_height : ℚ := 12) (arrow_spacing : ℚ := 4)
    (block_spacing : ℚ := 16) (header_fsize : ℚ := 15) (info_fsize : ℚ := 12)
    (width : ℤ := 600) : Except FigError SVG := do
  let scale_factor ← calculate_scale_factor f width
  let sorted := (sort_synthases_by_length f.synthases).mergeSort tsLE
  let (blocks, offset) ← visualise_blocks scale_factor arrow_spacing arrow_height
    info_fsize header_fsize block_spacing (groupRuns sorted) 3
  let gradients ← sorted.mapM (generate_synthase_gradient f)
  .ok { width := width, height := offset - block_spacing - arrow_spacing - 4,
        gradients := gradients, blocks := blocks }

/-- Modelled from the spec: the serialised form of one entity
(`Synthase.to_dict` / `Synthase.from_dict` live in the missing model module);
a record of header, sequence and domains. -/
structure SynRecord where
  header : String
  sequence : String
  domains : List Domain
deriving DecidableEq

/-- Modelled from the spec: `Synthase.to_dict`, the serialised record of an
entity: header, sequence and domains (classification labels are derived data
and are not serialised). -/
def Synthase.to_dict (s : Synthase) : SynRecord :=
  { header := s.header, sequence := s.sequence, domains := s.domains }

/-- Modelled from the spec: `Synthase.from_dict`, rebuilding an entity from a
record; the derivation of the classification labels from the domains is not
under `src/`, so it is abstracted as the functions `tf` and `sf`. -/
def Synthase.from_dict (tf sf : List Domain → String) (r : SynRecord) : Synthase :=
  { header := r.header, sequence := r.sequence, domains := r.domains,
    type := tf r.domains, subtype := sf r.domains }

/-- `Figure.to_json`: the list of serialised entity records, in order. -/
def Figure.to_json (f : Figure) : List SynRecord :=
  f.synthases.map Synthase.to_dict

/-- `Figure.from_json`: rebuild a `Figure` from the records; the constructor is
called without colour overrides, so the registry is the default one. -/
def Figure.from_json (tf sf : List Domain → String) (records : List SynRecord) : Figure :=
  Figure.new (records.map (Synthase.from_dict tf sf))

/-- Python `range(0, stop, step)` for a positive `step`. -/
def pyRange (stop step : Nat) : List Nat :=
  (List.range ((stop + step - 1) / step)).map (fun k => k * step)

/-- Python slice `s[i : i + limit]`. -/
def pySlice (s : String) (i limit : Nat) : String :=
  ⟨(s.data.drop i).take limit⟩

/-- `wrap_fasta` from `figure.py`:
`"\n".join(sequence[i : i + limit] for i in range(0, len(sequence), limit))`. -/
def wrap_fasta (sequence : String) (limit : Nat := 80) : String :=
  String.intercalate "\n" ((pyRange sequence.length limit).map (pySlice sequence · limit))

/-- The chunk list underlying `wrap_fasta`, for reasoning about its lines. -/
def wrapChunks (sequence : String) (limit : Nat) : List String :=
  (pyRange sequence.length limit).map (pySlice sequence · limit)

/-- The chunk list at the character level, for reasoning about `wrap_fasta`. -/
def chunksL (limit : Nat) (cs : List Char) : List (List Char) :=
  (List.range ((cs.length + limit - 1) / limit)).map (fun k => (cs.drop (k * limit)).take limit)

/-- The maximum sequence length over an entity list (0 on an empty list). -/
def maxSequenceLength (l : List Synthase) : Nat :=
  l.foldl (fun m s => max m s.sequence_length) 0

/-- The length key used by the sort preceding the grouping: sequence length,
or architecture length when some entity of the figure has an empty sequence. -/
def lengthKey (l : List Synthase) (s : Synthase) : Nat :=
  if l.any (fun t => t.sequence == "") then s.architecture.length else s.sequence_length

/-- Ascending order on the composite key `(type, subtype)`, as a relation. -/
def tsRel (a b : Synthase) : Prop :=
  a.type < b.type ∨ (a.type = b.type ∧ a.subtype ≤ b.subtype)

instance : DecidableRel tsRel := fun _ _ => by unfold tsRel; infer_instance

/-- C1 exactly as the spec states it: the groups of `iterate_synthase_types`
concatenate to a permutation of the input, every group is keyed by a single
subtype distinct from every other group's subtype, groups appear in ascending
`(type, subtype)` order, and within each group the length-descending order of
the preceding sort is preserved. -/
def C1Stated (l : List Synthase) : Prop :=
  (((iterate_synthase_types l).map Prod.snd).flatten.Perm l)
  ∧ (∀ p ∈ iterate_synthase_types l, ∀ s ∈ p.2, s.subtype = p.1)
  ∧ (((iterate_synthase_types l).map Prod.fst).Pairwise (· ≠ ·))
  ∧ (((iterate_synthase_types l).map Prod.snd).flatten.Pairwise tsRel)
  ∧ (∀ p ∈ iterate_synthase_types l,
      p.2.Pairwise (fun a b => lengthKey l b ≤ lengthKey l a))

/-- The validation language named by the claim: exactly `#RGB` or `#RRGGBB`
with case-insensitive hex digits. -/
def HexBodyClaim (cs : List Char) : Prop :=
  ∃ ds : List Char, cs = '#' :: ds ∧ (ds.length = 3 ∨ ds.length = 6) ∧
    ∀ c ∈ ds, isHexDigitChar c = true

/-- Helper to build concrete entities for witnesses and counterexamples. -/
def mkSyn (h seq t st : String) (ds : List Domain := []) : Synthase :=
  { header := h, sequence := seq, domains := ds, type := t, subtype := st }

/-- Counterexample entities for the grouping claim: four entities whose
`(type, subtype)` sort splits subtype `x` into two non-adjacent groups and
puts a shorter entity before a longer one inside the first group. -/
def exA : Synthase := mkSyn "exA" "MM" "a" "x"

/-- Second counterexample entity: type `b`, subtype `x`, length 3. -/
def exB : Synthase := mkSyn "exB" "MMM" "b" "x"

/-- Third counterexample entity: type `b`, subtype `y`, length 1. -/
def exY : Synthase := mkSyn "exY" "M" "b" "y"

/-- Fourth counterexample entity: type `c`, subtype `x`, length 4. -/
def exC : Synthase := mkSyn "exC" "MMMM" "c" "x"

/-- The counterexample input for the grouping claim, in length-descending
order so that the length sort leaves it unchanged. -/
def c1Input : List Synthase := [exC, exB, exA, exY]

/-- The scenario entity of the spec: 100 residues and one KS domain over the
first half of the sequence. -/
def scenarioSyn : Synthase :=
  mkSyn "A" (String.mk (List.replicate 100 'M')) "t" "s" [⟨"KS", 0, 50⟩]

/-- A figure with one empty-sequence entity and one two-residue entity, used
against the error-precedence part of the error-handling claim. -/
def c6fig : Figure := Figure.new [mkSyn "a" "" "t" "u", mkSyn "b" "MV" "t" "u"]

/-- A small figure with one two-residue entity, for concrete witnesses. -/
def c3fig : Figure := Figure.new [mkSyn "w" "MM" "t" "u"]

/-- The four stops emitted for one domain, with its colour made explicit, for
stating the gradient claim. -/
def fourStops (L : Nat) (col : Domain → String) (d : Domain) : List Stop :=
  [⟨d.start * 100 / L, "white"⟩, ⟨d.start * 100 / L, col d⟩,
   ⟨d.«end» * 100 / L, col d⟩, ⟨d.«end» * 100 / L, "white"⟩]

/-! ## Theorems -/

theorem length_pos_of_ne_empty (s : String) (h : s ≠ "") : 0 < s.length := by
  cases s with
  | mk data =>
    have hd : data ≠ [] := by
      intro hnil
      subst hnil
      exact h rfl
    simpa [String.length] using List.length_pos.mpr hd

/-- C2: deserialising the serialisation of a Figure yields entities with the
same header, sequence and domains, in the same order, and the colour registry
of the deserialised Figure is the default one (it is not serialised). -/
theorem c2_json_roundtrip (tf sf : List Domain → String) (f : Figure) :
    ((Figure.from_json tf sf f.to_json).synthases.map
        (fun s => (s.header, s.sequence, s.domains))
      = f.synthases.map (fun s => (s.header, s.sequence, s.domains)))
    ∧ (Figure.from_json tf sf f.to_json).colours = default_colours := by
  refine ⟨?_, rfl⟩
  simp only [Figure.from_json, Figure.to_json, Figure.new, List.map_map]
  rfl

theorem foldl_max_le_init (xs : List Synthase) (a : Nat) :
    a ≤ xs.foldl (fun m s => max m s.sequence_length) a := by
  induction xs generalizing a with
  | nil => exact Nat.le_refl a
  | cons x xs ih => exact Nat.le_trans (Nat.le_max_left _ _) (ih _)

theorem sequence_length_foldl_pick (xs : List Synthase) (x : Synthase) :
    (xs.foldl (fun best y =>
        if y.sequence_length > best.sequence_length then y else best) x).sequence_length
      = xs.foldl (fun m s => max m s.sequence_length) x.sequence_length := by
  induction xs generalizing x with
  | nil => rfl
  | cons y ys ih =>
    simp only [List.foldl_cons]
    rw [ih]
    congr 1
    by_cases h : y.sequence_length > x.sequence_length
    · simp only [if_pos h]
      omega
    · simp only [if_neg h]
      omega

theorem maxSequenceLength_cons (x : Synthase) (xs : List Synthase) :
    maxSequenceLength (x :: xs)
      = xs.foldl (fun m s => max m s.sequence_length) x.sequence_length := by
  simp [maxSequenceLength, List.foldl_cons]

/-- C3: for a positive target width and a non-empty entity list without empty
sequences, the scale factor times the maximum sequence length is exactly
`width - 2`. -/
theorem c3_scale_factor_times_max (f : Figure) (width : ℤ)
    (hw : 0 < width) (hne : f.synthases ≠ [])
    (hseq : ∀ s ∈ f.synthases, s.sequence ≠ "") :
    ∃ q : ℚ, calculate_scale_factor f width = .ok q ∧
      q * (maxSequenceLength f.synthases : ℚ) = (width : ℚ) - 2 := by
  obtain ⟨x, xs, hx⟩ := List.exists_cons_of_ne_nil hne
  have hany : f.synthases.any (fun s => s.sequence == "") = false := by
    rw [List.any_eq_false]
    intro s hs
    simpa using hseq s hs
  have hmax : pyMaxBySeqLen f.synthases
      = some (xs.foldl (fun best y =>
          if y.sequence_length > best.sequence_length then y else best) x) := by
    rw [hx]
    rfl
  have hlen : (xs.foldl (fun best y =>
      if y.sequence_length > best.sequence_length then y else best) x).sequence_length
        = maxSequenceLength f.synthases := by
    rw [hx, maxSequenceLength_cons, sequence_length_foldl_pick]
  have hpos : 0 < maxSequenceLength f.synthases := by
    rw [hx, maxSequenceLength_cons]
    have h1 : 0 < x.sequence_length :=
      length_pos_of_ne_empty x.sequence (hseq x (hx ▸ List.mem_cons_self x xs))
    exact Nat.lt_of_lt_of_le h1 (foldl_max_le_init xs x.sequence_length)
  refine ⟨((width : ℚ) - 2) / (maxSequenceLength f.synthases : ℚ), ?_, ?_⟩
  · unfold calculate_scale_factor
    rw [hany, hmax]
    simp only [Bool.false_eq_true, if_false, if_neg (by omega : ¬ width < 0)]
    rw [hlen]
  · have : (maxSequenceLength f.synthases : ℚ) ≠ 0 := by
      exact_mod_cast Nat.pos_iff_ne_zero.mp hpos
    rw [div_mul_cancel₀ _ this]

/-- Witness for C3: a concrete figure with one two-residue entity at target
width 4 has scale factor 1 and satisfies the product identity. -/
theorem c3_witness :
    (0 : ℤ) < 4 ∧ ∃ q : ℚ, calculate_scale_factor c3fig 4 = .ok q ∧
      q * (maxSequenceLength c3fig.synthases : ℚ) = (4 : ℚ) - 2 :=
  ⟨by decide, c3_scale_factor_times_max c3fig 4 (by decide) (by decide) (by decide)⟩

theorem visualise_error (f : Figure) (ah asp bsp hf inf : ℚ) (width : ℤ) (e : FigError)
    (h : calculate_scale_factor f width = .error e) :
    visualise f ah asp bsp hf inf width = .error e := by
  unfold visualise
  rw [h]
  rfl

/-- C9: for an empty entity list both guards pass at a non-negative width, yet
`calculate_scale_factor` fails on the maximum of the empty list, and
`visualise` on an empty figure always fails, at every width. -/
theorem c9_empty_figure_never_renders :
    (∀ width : ℤ, 0 ≤ width →
      calculate_scale_factor (Figure.new []) width = .error .maxEmpty)
    ∧ (∀ (ah asp bsp hf inf : ℚ) (width : ℤ), ∃ e : FigError,
        visualise (Figure.new []) ah asp bsp hf inf width = .error e) := by
  have hpos : ∀ width : ℤ, ¬ width < 0 →
      calculate_scale_factor (Figure.new []) width = .error .maxEmpty := by
    intro width hw
    unfold calculate_scale_factor
    simp [Figure.new, pyMaxBySeqLen, hw]
  refine ⟨fun width hw => hpos width (by omega), ?_⟩
  intro ah asp bsp hf inf width
  by_cases hw : width < 0
  · refine ⟨.invalidWidth, visualise_error _ _ _ _ _ _ _ _ ?_⟩
    unfold calculate_scale_factor
    simp [Figure.new, hw]
  · exact ⟨.maxEmpty, visualise_error _ _ _ _ _ _ _ _ (hpos width hw)⟩

/-- Witness for C9: the default width 600 on an empty figure. -/
theorem c9_witness :
    calculate_scale_factor (Figure.new []) 600 = .error .maxEmpty ∧
      ∃ e : FigError, visualise (Figure.new []) 12 4 16 15 12 600 = .error e :=
  ⟨c9_empty_figure_never_renders.1 600 (by decide),
   c9_empty_figure_never_renders.2 12 4 16 15 12 600⟩

theorem keys_updateColour (k v : String) (c : Colours) :
    (updateColour k v c).map Prod.fst = c.map Prod.fst := by
  induction c with
  | nil => rfl
  | cons p rest ih =>
    obtain ⟨k', v'⟩ := p
    by_cases h : k' = k
    · simp [updateColour, h]
    · simp [updateColour, h, ih]

theorem keys_set_colours_run (ov : List (String × String)) (c : Colours) :
    ((set_colours_run c ov).1).map Prod.fst = c.map Prod.fst := by
  induction ov generalizing c with
  | nil => rfl
  | cons p rest ih =>
    obtain ⟨k, v⟩ := p
    unfold set_colours_run
    by_cases h1 : (lookupColour c k).isNone
    · simp [h1]
    · cases hv : _validate_colour v with
      | false => simp [h1, hv]
      | true => simp [h1, hv, ih, keys_updateColour]

/-- C10: the key sequence of the colour registry is the fixed list of 15
domain-type labels after construction, and is left unchanged by
`set_colours` (succeeding or failing) and by any sequence of such calls. -/
theorem c10_key_set_invariant :
    ((Figure.new []).colours.map Prod.fst =
      ["ACP", "KS", "SAT", "KR", "MT", "ER", "AT", "DH",
       "PT", "TE", "TR", "T", "R", "C", "A"])
    ∧ (∀ (f : Figure) (ov : List (String × String)),
        ((f.set_colours ov).1).colours.map Prod.fst = f.colours.map Prod.fst)
    ∧ (∀ ovs : List (List (String × String)),
        (ovs.foldl (fun c ov => (set_colours_run c ov).1) default_colours).map Prod.fst
          = default_colours.map Prod.fst) := by
  have hfold : ∀ (ovs : List (List (String × String))) (c : Colours),
      (ovs.foldl (fun c ov => (set_colours_run c ov).1) c).map Prod.fst
        = c.map Prod.fst := by
    intro ovs
    induction ovs with
    | nil => intro c; rfl
    | cons ov rest ih =>
      intro c
      rw [List.foldl_cons, ih, keys_set_colours_run]
  exact ⟨rfl, fun f ov => keys_set_colours_run ov f.colours, fun ovs => hfold ovs _⟩

theorem chunksL_nil_of_pos (limit : Nat) (hl : 0 < limit) : chunksL limit [] = [] := by
  unfold chunksL
  have h0 : (([] : List Char).length + limit - 1) / limit = 0 :=
    Nat.div_eq_of_lt (by simp; omega)
  rw [h0]
  rfl

theorem chunksL_cons (limit : Nat) (hl : 0 < limit) (cs : List Char) (h : cs ≠ []) :
    chunksL limit cs = cs.take limit :: chunksL limit (cs.drop limit) := by
  have hn : 0 < cs.length := List.length_pos.mpr h
  have hcount : (cs.length + limit - 1) / limit
      = ((cs.drop limit).length + limit - 1) / limit + 1 := by
    rw [List.length_drop]
    rcases Nat.le_total limit cs.length with hle | hle
    · have e1 : cs.length + limit - 1 = (cs.length - 1) + limit := by omega
      have e2 : cs.length - limit + limit - 1 = cs.length - 1 := by omega
      rw [e1, e2, Nat.add_div_right _ hl]
    · have e1 : cs.length - limit + limit - 1 = limit - 1 := by omega
      have e2 : cs.length + limit - 1 = (cs.length - 1) + limit := by omega
      rw [e1, e2, Nat.add_div_right _ hl]
      have h3 : (cs.length - 1) / limit = 0 := Nat.div_eq_of_lt (by omega)
      have h4 : (limit - 1) / limit = 0 := Nat.div_eq_of_lt (by omega)
      rw [h3, h4]
  unfold chunksL
  rw [hcount, List.range_succ_eq_map, List.map_cons, List.map_map]
  congr 1
  · simp
  · refine List.map_congr_left ?_
    intro k _
    have hmul : (k + 1) * limit = limit + k * limit := by
      rw [Nat.succ_mul, Nat.add_comm]
    simp only [Function.comp_apply, List.drop_drop, Nat.succ_eq_add_one, hmul]

theorem chunksL_spec (limit : Nat) (hl : 0 < limit) (cs : List Char) :
    ((chunksL limit cs).flatten = cs)
    ∧ (∀ c ∈ (chunksL limit cs).dropLast, c.length = limit)
    ∧ (∀ c ∈ chunksL limit cs, c.length ≤ limit) := by
  by_cases h : cs = []
  · subst h
    rw [chunksL_nil_of_pos limit hl]
    exact ⟨rfl, fun c hc => by simp at hc, fun c hc => by simp at hc⟩
  · have ih := chunksL_spec limit hl (cs.drop limit)
    rw [chunksL_cons limit hl cs h]
    refine ⟨?_, ?_, ?_⟩
    · rw [List.flatten_cons, ih.1, List.take_append_drop]
    · intro c hc
      by_cases hrest : chunksL limit (cs.drop limit) = []
      · rw [hrest] at hc
        simp at hc
      · rw [List.dropLast_cons_of_ne_nil hrest] at hc
        rcases List.mem_cons.mp hc with rfl | hc'
        · have hdrop : cs.drop limit ≠ [] := by
            intro hd
            exact hrest (by rw [hd, chunksL_nil_of_pos limit hl])
          have hlt : limit < cs.length := by
            have := List.length_pos.mpr hdrop
            rw [List.length_drop] at this
            omega
          simp [List.length_take]
          omega
        · exact ih.2.1 c hc'
    · intro c hc
      rcases List.mem_cons.mp hc with rfl | hc'
      · simp [List.length_take]
      · exact ih.2.2 c hc'
termination_by cs.length
decreasing_by
  have h1 := List.length_pos.mpr h
  rw [List.length_drop]
  omega

theorem wrapChunks_data (s : String) (limit : Nat) :
    (wrapChunks s limit).map String.data = chunksL limit s.data := by
  unfold wrapChunks pyRange pySlice chunksL
  rw [List.map_map, List.map_map]
  rfl

/-- C8: for every sequence and positive line width, `wrap_fasta` joins with
newlines the successive chunks of the sequence; every chunk but the last has
exactly `limit` characters, every chunk has at most `limit` characters, their
concatenation is the original sequence, and an 85-character sequence at limit
80 yields two lines of lengths 80 and 5. -/
theorem c8_wrap_inserts_line_breaks (s : String) (limit : Nat) (h : 0 < limit) :
    (wrap_fasta s limit = String.intercalate "\n" (wrapChunks s limit))
    ∧ (((wrapChunks s limit).map String.data).flatten = s.data)
    ∧ (∀ c ∈ (wrapChunks s limit).dropLast, c.length = limit)
    ∧ (∀ c ∈ wrapChunks s limit, c.length ≤ limit)
    ∧ ((wrapChunks (String.mk (List.replicate 85 'A')) 80).map String.length
        = [80, 5]) := by
  have hspec := chunksL_spec limit h s.data
  have hdata := wrapChunks_data s limit
  refine ⟨rfl, ?_, ?_, ?_, ?_⟩
  · rw [hdata, hspec.1]
  · intro c hc
    have : c.data ∈ ((wrapChunks s limit).map String.data).dropLast := by
      rw [← List.map_dropLast]
      exact List.mem_map_of_mem String.data hc
    rw [hdata] at this
    exact hspec.2.1 c.data this
  · intro c hc
    have : c.data ∈ (wrapChunks s limit).map String.data :=
      List.mem_map_of_mem String.data hc
    rw [hdata] at this
    exact hspec.2.2 c.data this
  · decide

/-- Witness for C8: wrapping a five-character string at width 2 gives chunks
of lengths 2, 2, 1 that concatenate back to the original. -/
theorem c8_witness :
    (wrap_fasta "ABCDE" 2 = String.intercalate "\n" (wrapChunks "ABCDE" 2))
    ∧ (((wrapChunks "ABCDE" 2).map String.data).flatten = "ABCDE".data) := by
  have h := c8_wrap_inserts_line_breaks "ABCDE" 2 (by decide)
  exact ⟨h.1, h.2.1⟩

theorem hexBody_iff (cs : List Char) : hexBody cs = true ↔ HexBodyClaim cs := by
  cases cs with
  | nil => simp [hexBody, HexBodyClaim]
  | cons c rest =>
    simp only [hexBody, Bool.and_eq_true, Bool.or_eq_true, decide_eq_true_eq,
      List.all_eq_true, HexBodyClaim]
    constructor
    · rintro ⟨⟨hc, hlen⟩, hall⟩
      exact ⟨rest, by rw [hc], by tauto, hall⟩
    · rintro ⟨ds, hds, hlen, hall⟩
      obtain ⟨h1, h2⟩ := List.cons.inj hds
      subst h1
      subst h2
      exact ⟨⟨rfl, by tauto⟩, hall⟩

theorem validate_colour_iff (s : String) :
    _validate_colour s = true ↔
      (HexBodyClaim s.data
        ∨ ∃ body : List Char, s.data = body ++ ['\n'] ∧ HexBodyClaim body) := by
  unfold _validate_colour
  simp only [Bool.or_eq_true, Bool.and_eq_true, decide_eq_true_eq, hexBody_iff]
  constructor
  · rintro (h | ⟨hlast, hbody⟩)
    · exact Or.inl h
    · obtain ⟨ys, hys⟩ := List.getLast?_eq_some_iff.mp hlast
      refine Or.inr ⟨ys, hys, ?_⟩
      rw [hys] at hbody
      simpa using hbody
  · rintro (h | ⟨body, hbody, hclaim⟩)
    · exact Or.inl h
    · refine Or.inr ⟨List.getLast?_eq_some_iff.mpr ⟨body, hbody⟩, ?_⟩
      rw [hbody]
      simpa using hclaim

/-- Counterexample to C5: the string `"#abc\n"` is not of the form `#RGB` or
`#RRGGBB`, yet `_validate_colour` accepts it, because the Python `$` anchor
also matches just before a single trailing newline. -/
theorem c5_counterexample :
    _validate_colour "#abc\n" = true ∧ ¬ HexBodyClaim "#abc\n".data := by
  refine ⟨by decide, ?_⟩
  rintro ⟨ds, hds, hlen, -⟩
  have h5 : ("#abc\n".data).length = 5 := by decide
  rw [hds] at h5
  simp at h5
  omega

theorem lookupColour_updateColour_self (k v : String) (c : Colours)
    (h : (lookupColour c k).isSome = true) :
    lookupColour (updateColour k v c) k = some v := by
  induction c with
  | nil => simp [lookupColour] at h
  | cons p rest ih =>
    obtain ⟨k0, v0⟩ := p
    by_cases hk : k0 = k
    · subst hk
      simp [updateColour, lookupColour]
    · simp only [updateColour, if_neg hk]
      simp only [lookupColour, List.find?_cons_of_neg, hk, decide_eq_true_eq,
        not_false_eq_true] at h ⊢
      exact ih h

theorem lookupColour_updateColour_other (k v k' : String) (c : Colours) (h : k' ≠ k) :
    lookupColour (updateColour k v c) k' = lookupColour c k' := by
  induction c with
  | nil => rfl
  | cons p rest ih =>
    obtain ⟨k0, v0⟩ := p
    by_cases hk : k0 = k
    · subst hk
      have h1 : ¬ (k0 = k') := fun he => h he.symm
      simp [updateColour, lookupColour, List.find?_cons_of_neg, h1]
    · by_cases hk' : k0 = k'
      · subst hk'
        simp [updateColour, if_neg hk, lookupColour]
      · simp only [updateColour, if_neg hk]
        simp only [lookupColour, List.find?_cons_of_neg, hk', decide_eq_true_eq,
          not_false_eq_true]
        exact ih

theorem lookupColour_updateColour_isNone (k v k' : String) (c : Colours) :
    (lookupColour (updateColour k v c) k').isNone = (lookupColour c k').isNone := by
  induction c with
  | nil => rfl
  | cons p rest ih =>
    obtain ⟨k0, v0⟩ := p
    by_cases hk : k0 = k
    · subst hk
      by_cases hk' : k0 = k'
      · subst hk'
        simp [updateColour, lookupColour]
      · have h1 : ¬ (k0 = k') := hk'
        simp [updateColour, lookupColour, List.find?_cons_of_neg, h1]
    · by_cases hk' : k0 = k'
      · subst hk'
        simp [updateColour, if_neg hk, lookupColour]
      · simp only [updateColour, if_neg hk]
        simp only [lookupColour, List.find?_cons_of_neg, hk', decide_eq_true_eq,
          not_false_eq_true]
        exact ih

theorem isSome_of_isNone_eq {α : Type} {a b : Option α}
    (h : a.isNone = b.isNone) (hb : b.isSome = true) : a.isSome = true := by
  cases a <;> cases b <;> simp_all

theorem set_colours_run_error :
    ∀ (ov : List (String × String)) (c : Colours) (p : String × String), p ∈ ov →
      ((lookupColour c p.1).isNone = true ∨ _validate_colour p.2 = false) →
      ((set_colours_run c ov).2).isSome = true := by
  intro ov
  induction ov with
  | nil =>
    intro c p hp
    simp at hp
  | cons q rest ih =>
    intro c p hp hbad
    obtain ⟨k, v⟩ := q
    unfold set_colours_run
    by_cases h1 : (lookupColour c k).isNone = true
    · simp [h1]
    · cases hv : _validate_colour v with
      | false => simp [h1, hv]
      | true =>
        rw [if_neg h1, if_neg (fun he => Bool.noConfusion he)]
        rcases List.mem_cons.mp hp with he | hmem
        · rcases hbad with hb | hb
          · rw [he] at hb
            exact absurd hb h1
          · rw [he, hv] at hb
            simp at hb
        · refine ih (updateColour k v c) p hmem ?_
          rcases hbad with hb | hb
          · exact Or.inl (by rw [lookupColour_updateColour_isNone]; exact hb)
          · exact Or.inr hb

theorem set_colours_run_ok :
    ∀ (ov : List (String × String)) (c : Colours),
      (∀ p ∈ ov, (lookupColour c p.1).isSome = true ∧ _validate_colour p.2 = true) →
      (set_colours_run c ov).2 = none
      ∧ ∀ k : String, lookupColour (set_colours_run c ov).1 k
          = (ov.reverse.find? (fun p => p.1 = k)).elim (lookupColour c k)
              (fun p => some p.2) := by
  intro ov
  induction ov with
  | nil =>
    intro c _
    exact ⟨rfl, fun k => rfl⟩
  | cons q rest ih =>
    intro c h
    obtain ⟨k0, v0⟩ := q
    have hq := h (k0, v0) (List.mem_cons_self _ _)
    have h1 : (lookupColour c k0).isNone = false := by
      rcases Option.isSome_iff_exists.mp hq.1 with ⟨v', hv'⟩
      simp [hv']
    unfold set_colours_run
    rw [if_neg (by simp [h1]), hq.2, if_neg (fun he => Bool.noConfusion he)]
    have hrest : ∀ p ∈ rest,
        (lookupColour (updateColour k0 v0 c) p.1).isSome = true
        ∧ _validate_colour p.2 = true := by
      intro p hp
      have hh := h p (List.mem_cons_of_mem _ hp)
      exact ⟨isSome_of_isNone_eq (lookupColour_updateColour_isNone k0 v0 p.1 c) hh.1, hh.2⟩
    obtain ⟨hnone, hlook⟩ := ih (updateColour k0 v0 c) hrest
    refine ⟨hnone, ?_⟩
    intro k
    rw [hlook k, List.reverse_cons, List.find?_append]
    cases hfind : rest.reverse.find? (fun p => p.1 = k) with
    | some p => simp [hfind]
    | none =>
      simp only [hfind, Option.none_or]
      by_cases hkk : k0 = k
      · subst hkk
        simp only [List.find?_cons_of_pos, decide_eq_true_eq, Option.elim]
        exact lookupColour_updateColour_self k0 v0 c hq.1
      · simp only [List.find?_cons_of_neg, hkk, decide_eq_true_eq, not_false_eq_true,
          List.find?_nil, Option.elim]
        exact lookupColour_updateColour_other k0 v0 k c (fun he => hkk he.symm)

/-- C5 amended: colour validation succeeds exactly on `#RGB` or `#RRGGBB`
(case-insensitive hex) optionally followed by one trailing newline (the Python
`$` anchor); `set_colours` fails whenever some override entry has an
unrecognised key or an invalid value, and a call whose entries are all valid
succeeds and stores, for each key, the last value supplied for it. -/
theorem c5_colour_validation_amended :
    (∀ s : String, _validate_colour s = true ↔
      (HexBodyClaim s.data
        ∨ ∃ body : List Char, s.data = body ++ ['\n'] ∧ HexBodyClaim body))
    ∧ (∀ (f : Figure) (ov : List (String × String)) (p : String × String), p ∈ ov →
        ((lookupColour f.colours p.1).isNone = true ∨ _validate_colour p.2 = false) →
        ((f.set_colours ov).2).isSome = true)
    ∧ (∀ (f : Figure) (ov : List (String × String)),
        (∀ p ∈ ov, (lookupColour f.colours p.1).isSome = true
            ∧ _validate_colour p.2 = true) →
        (f.set_colours ov).2 = none
        ∧ ∀ k : String, lookupColour ((f.set_colours ov).1).colours k
            = (ov.reverse.find? (fun p => p.1 = k)).elim (lookupColour f.colours k)
                (fun p => some p.2)) :=
  ⟨validate_colour_iff,
   fun f ov p hp hbad => set_colours_run_error ov f.colours p hp hbad,
   fun f ov h => set_colours_run_ok ov f.colours h⟩

/-- Witness for C5: `"#08B208"` validates, and overriding `KS` on a default
registry succeeds and stores the supplied value. -/
theorem c5_witness :
    _validate_colour "#08B208" = true
    ∧ ((Figure.new []).set_colours [("KS", "#000000")]).2 = none
    ∧ lookupColour (((Figure.new []).set_colours [("KS", "#000000")]).1).colours "KS"
        = some "#000000" := by
  have h1 := (c5_colour_validation_amended.1 "#08B208").mpr
    (Or.inl ⟨['0', '8', 'B', '2', '0', '8'], by decide, Or.inr (by decide), by decide⟩)
  have h2 := c5_colour_validation_amended.2.2 (Figure.new []) [("KS", "#000000")]
    (by intro p hp; rcases List.mem_cons.mp hp with he | he
        · rw [he]; exact ⟨by decide, by decide⟩
        · simp at he)
  refine ⟨h1, h2.1, ?_⟩
  have h3 := h2.2 "KS"
  simpa using h3

/-- Counterexample to C6: with an empty-sequence entity and a negative width,
the empty-sequence check fires first, so a negative width does not raise
`InvalidWidthError` as the claim demands. -/
theorem c6_counterexample :
    calculate_scale_factor c6fig (-5) = .error .emptySequence
    ∧ calculate_scale_factor c6fig (-5) ≠ .error .invalidWidth := by
  refine ⟨rfl, ?_⟩
  intro h
  rw [show calculate_scale_factor c6fig (-5) = .error .emptySequence from rfl] at h
  simp at h

/-- C6 amended: an empty sequence always raises `EmptySequenceError`; a
negative width raises `InvalidWidthError` provided no entity has an empty
sequence (the empty-sequence check precedes the width check); and `visualise`
propagates any scale-factor error, producing no document. -/
theorem c6_error_precedence_amended :
    (∀ (f : Figure) (width : ℤ), (∃ s ∈ f.synthases, s.sequence = "") →
        calculate_scale_factor f width = .error .emptySequence)
    ∧ (∀ (f : Figure) (width : ℤ), width < 0 →
        (∀ s ∈ f.synthases, s.sequence ≠ "") →
        calculate_scale_factor f width = .error .invalidWidth)
    ∧ (∀ (f : Figure) (ah asp bsp hf inf : ℚ) (width : ℤ) (e : FigError),
        calculate_scale_factor f width = .error e →
        visualise f ah asp bsp hf inf width = .error e) := by
  refine ⟨?_, ?_, ?_⟩
  · rintro f width ⟨s, hs, hemp⟩
    have hany : f.synthases.any (fun s => s.sequence == "") = true :=
      List.any_eq_true.mpr ⟨s, hs, by simp [hemp]⟩
    unfold calculate_scale_factor
    rw [hany]
    rfl
  · intro f width hw hseq
    have hany : f.synthases.any (fun s => s.sequence == "") = false := by
      rw [List.any_eq_false]
      intro s hs
      simpa using hseq s hs
    unfold calculate_scale_factor
    rw [hany, if_neg (fun he => Bool.noConfusion he), if_pos hw]
  · intro f ah asp bsp hf inf width e h
    exact visualise_error f ah asp bsp hf inf width e h

/-- Witness for C6: the two-entity figure of the spec scenario raises the
empty-sequence error, `visualise` propagates it, and a figure without empty
sequences raises the width error at width `-7`. -/
theorem c6_witness :
    calculate_scale_factor c6fig 600 = .error .emptySequence
    ∧ visualise c6fig 12 4 16 15 12 600 = .error .emptySequence
    ∧ calculate_scale_factor (Figure.new [mkSyn "b" "MV" "t" "u"]) (-7)
        = .error .invalidWidth := by
  have h1 := c6_error_precedence_amended.1 c6fig 600
    ⟨mkSyn "a" "" "t" "u", by decide, rfl⟩
  have h3 := c6_error_precedence_amended.2.1 (Figure.new [mkSyn "b" "MV" "t" "u"]) (-7)
    (by decide) (by decide)
  exact ⟨h1, c6_error_precedence_amended.2.2 c6fig 12 4 16 15 12 600 _ h1, h3⟩

/-- C7: for every entity with a non-empty sequence the polygon generator
returns exactly the five arrow vertices (left-top, right-top at scaled length
minus 10, tip at scaled length and the vertical midpoint, right-bottom,
left-bottom, with top edge `info_fsize * 0.9` and bottom `+ arrow_height`);
and the 100-residue scenario at width 102 has scale factor 1 and tip
x-coordinate 100. -/
theorem c7_polygon_five_points :
    (∀ (s : Synthase) (sf inf ah : ℚ), s.sequence ≠ "" →
      generate_synthase_polygon s sf inf ah = .ok
        { header := s.header,
          info := (s.header, s.sequence.length, s.architecture),
          points := [((0 : ℚ), inf * (9 / 10)),
                     (sf * (s.sequence.length : ℚ) - 10, inf * (9 / 10)),
                     (sf * (s.sequence.length : ℚ), inf * (9 / 10) + ah / 2),
                     (sf * (s.sequence.length : ℚ) - 10, inf * (9 / 10) + ah),
                     ((0 : ℚ), inf * (9 / 10) + ah)] })
    ∧ (calculate_scale_factor (Figure.new [scenarioSyn]) 102 = .ok 1
       ∧ ∃ p : PolygonSVG, generate_synthase_polygon scenarioSyn 1 12 14 = .ok p
           ∧ p.points[2]? = some ((100 : ℚ), (89 / 5 : ℚ))) := by
  have hgen : ∀ (s : Synthase) (sf inf ah : ℚ), s.sequence ≠ "" →
      generate_synthase_polygon s sf inf ah = .ok
        { header := s.header,
          info := (s.header, s.sequence.length, s.architecture),
          points := [((0 : ℚ), inf * (9 / 10)),
                     (sf * (s.sequence.length : ℚ) - 10, inf * (9 / 10)),
                     (sf * (s.sequence.length : ℚ), inf * (9 / 10) + ah / 2),
                     (sf * (s.sequence.length : ℚ) - 10, inf * (9 / 10) + ah),
                     ((0 : ℚ), inf * (9 / 10) + ah)] } := by
    intro s sf inf ah h
    unfold generate_synthase_polygon
    rw [if_neg (by simp [h])]
  refine ⟨hgen, ?_, ?_⟩
  · unfold calculate_scale_factor
    rw [show (Figure.new [scenarioSyn]).synthases.any (fun s => s.sequence == "") = false
          from by decide]
    rw [if_neg (fun he => Bool.noConfusion he), if_neg (by decide : ¬ (102 : ℤ) < 0)]
    rw [show pyMaxBySeqLen (Figure.new [scenarioSyn]).synthases = some scenarioSyn from rfl]
    have hlen : scenarioSyn.sequence_length = 100 := by decide
    show Except.ok ((((102 : ℤ) : ℚ) - 2) / (scenarioSyn.sequence_length : ℚ))
      = Except.ok 1
    rw [hlen]
    norm_num
  · have hs : scenarioSyn.sequence ≠ "" := by decide
    refine ⟨_, hgen scenarioSyn 1 12 14 hs, ?_⟩
    have hlen : (scenarioSyn.sequence.length : ℚ) = 100 := by
      rw [show scenarioSyn.sequence.length = 100 from by decide]
      norm_num
    simp [hlen]
    norm_num

/-- Witness for C7: a two-residue entity drawn at scale factor 2 yields the
five concrete vertices. -/
theorem c7_witness :
    generate_synthase_polygon (mkSyn "w" "MM" "t" "u") 2 12 14 = .ok
      { header := "w",
        info := ("w", 2, []),
        points := [((0 : ℚ), 12 * (9 / 10)),
                   (2 * ((2 : Nat) : ℚ) - 10, 12 * (9 / 10)),
                   (2 * ((2 : Nat) : ℚ), 12 * (9 / 10) + 14 / 2),
                   (2 * ((2 : Nat) : ℚ) - 10, 12 * (9 / 10) + 14),
                   ((0 : ℚ), 12 * (9 / 10) + 14)] } :=
  c7_polygon_five_points.1 (mkSyn "w" "MM" "t" "u") 2 12 14 (by decide)

theorem mapM_domainStops (colours : Colours) (L : Nat) (col : Domain → String) :
    ∀ ds : List Domain, (∀ d ∈ ds, lookupColour colours d.type = some (col d)) →
      ds.mapM (domainStops colours L) = .ok (ds.map (fourStops L col)) := by
  intro ds
  induction ds with
  | nil =>
    intro _
    rfl
  | cons d rest ih =>
    intro h
    rw [List.mapM_cons]
    rw [show domainStops colours L d = .ok (fourStops L col d) from by
      unfold domainStops
      rw [h d (List.mem_cons_self _ _)]
      rfl]
    rw [ih (fun d hd => h d (List.mem_cons_of_mem _ hd))]
    rfl

theorem length_flatten_fourStops (L : Nat) (col : Domain → String) (ds : List Domain) :
    ((ds.map (fourStops L col)).flatten).length = 4 * ds.length := by
  induction ds with
  | nil => rfl
  | cons d rest ih =>
    simp only [List.map_cons, List.flatten_cons, List.length_append, ih,
      List.length_cons, fourStops]
    simp
    omega

/-- C4: for an entity with a non-empty sequence the gradient builder emits,
per domain in order, white and domain-colour stops at
`floor(start / length * 100)` and domain-colour and white stops at
`floor(end / length * 100)` — exactly `4 n` stops for `n` domains — and it
fails with the empty-sequence error when the sequence is empty. -/
theorem c4_gradient_four_stops_per_domain :
    (∀ (f : Figure) (s : Synthase) (col : Domain → String), s.sequence ≠ "" →
        (∀ d ∈ s.domains, lookupColour f.colours d.type = some (col d)) →
        generate_synthase_gradient f s = .ok
          { id := s.header ++ "_doms",
            stops := (s.domains.map (fourStops s.sequence.length col)).flatten }
        ∧ ((s.domains.map (fourStops s.sequence.length col)).flatten).length
            = 4 * s.domains.length)
    ∧ (∀ (f : Figure) (s : Synthase), s.sequence = "" →
        generate_synthase_gradient f s = .error .emptySequence) := by
  constructor
  · intro f s col h hcol
    constructor
    · unfold generate_synthase_gradient
      rw [if_neg (by simp [h])]
      rw [mapM_domainStops f.colours s.sequence.length col s.domains hcol]
      rfl
    · exact length_flatten_fourStops s.sequence.length col s.domains
  · intro f s h
    unfold generate_synthase_gradient
    rw [if_pos (by simp [h])]

/-- Witness for C4: the scenario entity (100 residues, one KS domain over
0..50) yields four stops, at 0% and 50%, in the KS colour `#08B208`. -/
theorem c4_witness :
    generate_synthase_gradient (Figure.new [scenarioSyn]) scenarioSyn = .ok
      { id := "A_doms",
        stops := [⟨0, "white"⟩, ⟨0, "#08B208"⟩, ⟨50, "#08B208"⟩, ⟨50, "white"⟩] } := by
  have h := (c4_gradient_four_stops_per_domain.1 (Figure.new [scenarioSyn]) scenarioSyn
    (fun _ => "#08B208") (by decide) (by decide)).1
  rw [h]
  exact congrArg Except.ok (by decide)

theorem groupRuns_cons_nil (s : Synthase) (rest : List Synthase)
    (hg : groupRuns rest = []) :
    groupRuns (s :: rest) = [(s.subtype, [s])] := by
  unfold groupRuns
  rw [hg]

theorem groupRuns_cons_cons (s : Synthase) (rest : List Synthase)
    (k : String) (g : List Synthase) (t : List (String × List Synthase))
    (hg : groupRuns rest = (k, g) :: t) :
    groupRuns (s :: rest)
      = if s.subtype = k then (k, s :: g) :: t
        else (s.subtype, [s]) :: (k, g) :: t := by
  unfold groupRuns
  rw [hg]

theorem groupRuns_eq_nil_iff (l : List Synthase) : groupRuns l = [] ↔ l = [] := by
  cases l with
  | nil => simp [groupRuns]
  | cons s rest =>
    cases hg : groupRuns rest with
    | nil => simp [groupRuns_cons_nil s rest hg]
    | cons p t =>
      obtain ⟨k, g⟩ := p
      rw [groupRuns_cons_cons s rest k g t hg]
      by_cases h : s.subtype = k
      · simp [h]
      · simp [h]

theorem groupRuns_flatten (l : List Synthase) :
    ((groupRuns l).map Prod.snd).flatten = l := by
  induction l with
  | nil => rfl
  | cons s rest ih =>
    cases hg : groupRuns rest with
    | nil =>
      have hr : rest = [] := (groupRuns_eq_nil_iff rest).mp hg
      subst hr
      rw [groupRuns_cons_nil s [] hg]
      rfl
    | cons p t =>
      obtain ⟨k, g⟩ := p
      rw [hg] at ih
      rw [groupRuns_cons_cons s rest k g t hg]
      by_cases h : s.subtype = k
      · rw [if_pos h]
        simp only [List.map_cons, List.flatten_cons] at ih ⊢
        rw [← ih]
        rfl
      · rw [if_neg h]
        simp only [List.map_cons, List.flatten_cons] at ih ⊢
        rw [← ih]
        rfl

theorem groupRuns_mem (l : List Synthase) :
    ∀ p ∈ groupRuns l, p.2 ≠ [] ∧ ∀ s ∈ p.2, s.subtype = p.1 := by
  induction l with
  | nil =>
    intro p hp
    simp [groupRuns] at hp
  | cons s rest ih =>
    intro p hp
    cases hg : groupRuns rest with
    | nil =>
      rw [groupRuns_cons_nil s rest hg] at hp
      rcases List.mem_singleton.mp hp with rfl
      exact ⟨List.cons_ne_nil _ _, fun x hx => by
        rcases List.mem_singleton.mp hx with rfl
        rfl⟩
    | cons q t =>
      obtain ⟨k, g⟩ := q
      rw [groupRuns_cons_cons s rest k g t hg] at hp
      have ihq := fun p hp => ih p (hg ▸ hp)
      by_cases h : s.subtype = k
      · rw [if_pos h] at hp
        rcases List.mem_cons.mp hp with rfl | hmem
        · have hk := ihq (k, g) (List.mem_cons_self _ _)
          refine ⟨List.cons_ne_nil _ _, fun x hx => ?_⟩
          rcases List.mem_cons.mp hx with rfl | hxg
          · exact h
          · exact hk.2 x hxg
        · exact ihq p (List.mem_cons_of_mem _ hmem)
      · rw [if_neg h] at hp
        rcases List.mem_cons.mp hp with rfl | hmem
        · exact ⟨List.cons_ne_nil _ _, fun x hx => by
            rcases List.mem_singleton.mp hx with rfl
            rfl⟩
        · exact ihq p hmem

theorem groupRuns_keys_chain (l : List Synthase) :
    ((groupRuns l).map Prod.fst).Chain' (fun a b => a ≠ b) := by
  induction l with
  | nil => simp [groupRuns]
  | cons s rest ih =>
    cases hg : groupRuns rest with
    | nil => simp [groupRuns_cons_nil s rest hg]
    | cons p t =>
      obtain ⟨k, g⟩ := p
      rw [hg] at ih
      rw [groupRuns_cons_cons s rest k g t hg]
      by_cases h : s.subtype = k
      · rw [if_pos h]
        simpa using ih
      · rw [if_neg h]
        simp only [List.map_cons] at ih ⊢
        exact List.Chain'.cons h ih

theorem groupRuns_sublist (l : List Synthase) :
    ∀ p ∈ groupRuns l, p.2.Sublist l := by
  induction l with
  | nil =>
    intro p hp
    simp [groupRuns] at hp
  | cons s rest ih =>
    intro p hp
    cases hg : groupRuns rest with
    | nil =>
      rw [groupRuns_cons_nil s rest hg] at hp
      rcases List.mem_singleton.mp hp with rfl
      exact (List.nil_sublist rest).cons₂ s
    | cons q t =>
      obtain ⟨k, g⟩ := q
      rw [groupRuns_cons_cons s rest k g t hg] at hp
      have ihq := fun p hp => ih p (hg ▸ hp)
      by_cases h : s.subtype = k
      · rw [if_pos h] at hp
        rcases List.mem_cons.mp hp with rfl | hmem
        · exact ((ihq (k, g) (List.mem_cons_self _ _))).cons₂ s
        · exact (ihq p (List.mem_cons_of_mem _ hmem)).cons s
      · rw [if_neg h] at hp
        rcases List.mem_cons.mp hp with rfl | hmem
        · exact (List.nil_sublist rest).cons₂ s
        · exact (ihq p hmem).cons s

theorem tsLE_trans : ∀ a b c : Synthase, tsLE a b → tsLE b c → tsLE a c := by
  intro a b c
  simp only [tsLE, decide_eq_true_eq]
  rintro (h1 | ⟨h1e, h1s⟩) (h2 | ⟨h2e, h2s⟩)
  · exact Or.inl (lt_trans h1 h2)
  · exact Or.inl (by rw [← h2e]; exact h1)
  · exact Or.inl (by rw [h1e]; exact h2)
  · exact Or.inr ⟨h1e.trans h2e, le_trans h1s h2s⟩

theorem tsLE_total : ∀ a b : Synthase, tsLE a b || tsLE b a := by
  intro a b
  simp only [tsLE, Bool.or_eq_true, decide_eq_true_eq]
  rcases lt_trichotomy a.type b.type with h | h | h
  · exact Or.inl (Or.inl h)
  · rcases le_total a.subtype b.subtype with hs | hs
    · exact Or.inl (Or.inr ⟨h, hs⟩)
    · exact Or.inr (Or.inr ⟨h.symm, hs⟩)
  · exact Or.inr (Or.inl h)

theorem lenLE_trans (key : Synthase → Nat) :
    ∀ a b c : Synthase, lenLE key a b → lenLE key b c → lenLE key a c := by
  intro a b c
  simp only [lenLE, decide_eq_true_eq]
  omega

theorem lenLE_total (key : Synthase → Nat) :
    ∀ a b : Synthase, lenLE key a b || lenLE key b a := by
  intro a b
  simp only [lenLE, Bool.or_eq_true, decide_eq_true_eq]
  omega

theorem mergeSort_stable_pairwise {α : Type} (le : α → α → Bool)
    (htrans : ∀ a b c : α, le a b → le b c → le a c)
    (htotal : ∀ a b : α, le a b || le b a)
    (R : α → α → Prop) (hrefl : ∀ a, R a a) (l : List α) (h : l.Pairwise R) :
    (l.mergeSort le).Pairwise (fun a b => le a b = true → le b a = true → R a b) := by
  rw [← List.mergeSort_enum, List.pairwise_map]
  have hs := List.sorted_mergeSort
    (List.enumLE_trans htrans) (List.enumLE_total htotal) l.enum
  refine hs.imp_of_mem ?_
  intro x y hx hy hxy hab hba
  have hx' : l[x.1]? = some x.2 :=
    List.mem_enum_iff_getElem?.mp (List.mem_mergeSort.mp hx)
  have hy' : l[y.1]? = some y.2 :=
    List.mem_enum_iff_getElem?.mp (List.mem_mergeSort.mp hy)
  have hij : x.1 ≤ y.1 := by
    have hh := hxy
    simp only [List.enumLE, hab, hba, if_pos] at hh
    simpa using hh
  rcases Nat.lt_or_ge x.1 y.1 with hlt | hge
  · obtain ⟨hxb, hxe⟩ := List.getElem?_eq_some_iff.mp hx'
    obtain ⟨hyb, hye⟩ := List.getElem?_eq_some_iff.mp hy'
    have hR := List.pairwise_iff_getElem.mp h x.1 y.1 hxb hyb hlt
    rw [hxe, hye] at hR
    exact hR
  · have heq : x.1 = y.1 := Nat.le_antisymm hij hge
    rw [heq, hy'] at hx'
    have he2 : y.2 = x.2 := Option.some.inj hx'
    rw [← he2]
    exact hrefl y.2

theorem sort_by_length_perm (l : List Synthase) : (sort_synthases_by_length l).Perm l := by
  unfold sort_synthases_by_length
  by_cases h : l.any (fun s => s.sequence == "") = true
  · rw [if_pos h]
    exact List.mergeSort_perm l _
  · rw [if_neg h]
    exact List.mergeSort_perm l _

theorem sort_by_length_pairwise (l : List Synthase) :
    (sort_synthases_by_length l).Pairwise
      (fun a b => lengthKey l b ≤ lengthKey l a) := by
  unfold sort_synthases_by_length
  by_cases h : l.any (fun s => s.sequence == "") = true
  · rw [if_pos h]
    have hs := List.sorted_mergeSort
      (lenLE_trans (fun s => s.architecture.length))
      (lenLE_total (fun s => s.architecture.length)) l
    refine hs.imp ?_
    intro a b hab
    simp only [lenLE, decide_eq_true_eq] at hab
    simpa only [lengthKey, if_pos h] using hab
  · rw [if_neg h]
    have hs := List.sorted_mergeSort
      (lenLE_trans Synthase.sequence_length)
      (lenLE_total Synthase.sequence_length) l
    refine hs.imp ?_
    intro a b hab
    simp only [lenLE, decide_eq_true_eq] at hab
    simpa only [lengthKey, if_neg h] using hab

/-- C1 amended: the groups of `iterate_synthase_types` concatenate to a
permutation of the input; every group is non-empty and keyed by the single
subtype shared by all its members; consecutive groups have distinct subtypes
(a subtype can recur in non-adjacent groups when entities of the same subtype
have different types); the concatenated groups are in ascending
`(type, subtype)` order; and within each group, members of equal type — hence
of equal `(type, subtype)` key — preserve the length-descending order of the
preceding sort. -/
theorem c1_grouping_amended (l : List Synthase) :
    (((iterate_synthase_types l).map Prod.snd).flatten.Perm l)
    ∧ (∀ p ∈ iterate_synthase_types l, p.2 ≠ [] ∧ ∀ s ∈ p.2, s.subtype = p.1)
    ∧ (((iterate_synthase_types l).map Prod.fst).Chain' (fun a b => a ≠ b))
    ∧ (((iterate_synthase_types l).map Prod.snd).flatten.Pairwise tsRel)
    ∧ (∀ p ∈ iterate_synthase_types l,
        p.2.Pairwise (fun a b => a.type = b.type →
          lengthKey l b ≤ lengthKey l a)) := by
  have hsorted_perm : ((sort_synthases_by_length l).mergeSort tsLE).Perm l :=
    (List.mergeSort_perm _ tsLE).trans (sort_by_length_perm l)
  have hts : ((sort_synthases_by_length l).mergeSort tsLE).Pairwise tsRel := by
    have hs := List.sorted_mergeSort tsLE_trans tsLE_total
      (sort_synthases_by_length l)
    refine hs.imp ?_
    intro a b hab
    simpa only [tsRel, tsLE, decide_eq_true_eq] using hab
  have hstab : ((sort_synthases_by_length l).mergeSort tsLE).Pairwise
      (fun a b => tsLE a b = true → tsLE b a = true →
        lengthKey l b ≤ lengthKey l a) :=
    mergeSort_stable_pairwise tsLE tsLE_trans tsLE_total _
      (fun a => Nat.le_refl _) _ (sort_by_length_pairwise l)
  refine ⟨?_, ?_, ?_, ?_, ?_⟩
  · rw [iterate_synthase_types, groupRuns_flatten]
    exact hsorted_perm
  · exact groupRuns_mem _
  · exact groupRuns_keys_chain _
  · rw [iterate_synthase_types, groupRuns_flatten]
    exact hts
  · intro p hp
    have hmem := groupRuns_mem _ p hp
    have hsub := groupRuns_sublist _ p hp
    have hpair := List.Pairwise.sublist hsub hstab
    refine hpair.imp_of_mem ?_
    intro a b ha hb hab hty
    have hsa := hmem.2 a ha
    have hsb := hmem.2 b hb
    have hsub_eq : a.subtype = b.subtype := hsa.trans hsb.symm
    refine hab ?_ ?_
    · simp only [tsLE, decide_eq_true_eq]
      exact Or.inr ⟨hty, le_of_eq hsub_eq⟩
    · simp only [tsLE, decide_eq_true_eq]
      exact Or.inr ⟨hty.symm, le_of_eq hsub_eq.symm⟩

theorem tsLE_eval (a b : Synthase) :
    tsLE a b = decide (a.type.toList < b.type.toList
      ∨ (a.type = b.type ∧ a.subtype.toList ≤ b.subtype.toList)) := by
  rw [tsLE, decide_eq_decide]
  rw [String.lt_iff_toList_lt, String.le_iff_toList_le]

theorem mergeSort_pair {α : Type} (le : α → α → Bool) (a b : α) :
    List.mergeSort [a, b] le = if le a b then [a, b] else [b, a] := by
  rw [List.mergeSort]
  simp [List.splitInTwo, List.splitAt_eq, List.merge]

theorem mergeSort_four {α : Type} (le : α → α → Bool) (a b c d : α) :
    List.mergeSort [a, b, c, d] le
      = List.merge (List.mergeSort [a, b] le) (List.mergeSort [c, d] le) le := by
  rw [List.mergeSort]
  simp [List.splitInTwo, List.splitAt_eq]

theorem c1_eval : iterate_synthase_types c1Input
    = [("x", [exA, exB]), ("y", [exY]), ("x", [exC])] := by
  have h1 : sort_synthases_by_length c1Input = c1Input := by
    unfold sort_synthases_by_length
    rw [if_neg (show ¬ (c1Input.any (fun s => s.sequence == "") = true) from by decide)]
    exact List.mergeSort_of_sorted (by decide)
  unfold iterate_synthase_types
  rw [h1]
  unfold c1Input
  rw [mergeSort_four, mergeSort_pair, mergeSort_pair,
      if_neg (show ¬ (tsLE exC exB = true) from by rw [tsLE_eval]; decide),
      if_pos (show tsLE exA exY = true from by rw [tsLE_eval]; decide)]
  rw [List.cons_merge_cons,
      if_neg (show ¬ (tsLE exB exA = true) from by rw [tsLE_eval]; decide)]
  rw [List.cons_merge_cons,
      if_pos (show tsLE exB exY = true from by rw [tsLE_eval]; decide)]
  rw [List.cons_merge_cons,
      if_neg (show ¬ (tsLE exC exY = true) from by rw [tsLE_eval]; decide)]
  rw [List.merge_right]
  decide

/-- Counterexample to C1: on `c1Input` the subtype `x` keys two non-adjacent
groups, and inside the first group the shorter `exA` (type `a`) precedes the
longer `exB` (type `b`), so both the claimed distinctness of group subtypes
and the claimed within-group length-descending order fail. -/
theorem c1_counterexample :
    ¬ C1Stated c1Input
    ∧ (iterate_synthase_types c1Input).map Prod.fst = ["x", "y", "x"]
    ∧ ¬ (((iterate_synthase_types c1Input).map Prod.fst).Pairwise
          (fun a b => a ≠ b))
    ∧ ¬ (∀ p ∈ iterate_synthase_types c1Input,
          p.2.Pairwise (fun a b =>
            lengthKey c1Input b ≤ lengthKey c1Input a)) := by
  have hkeys : (iterate_synthase_types c1Input).map Prod.fst = ["x", "y", "x"] := by
    rw [c1_eval]
    rfl
  have hlen : ¬ (∀ p ∈ iterate_synthase_types c1Input,
      p.2.Pairwise (fun a b => lengthKey c1Input b ≤ lengthKey c1Input a)) := by
    intro hall
    have h := hall ("x", [exA, exB]) (by rw [c1_eval]; exact List.mem_cons_self _ _)
    have h2 := (List.pairwise_cons.mp h).1 exB (List.mem_cons_self _ _)
    revert h2
    decide
  have hdist : ¬ (((iterate_synthase_types c1Input).map Prod.fst).Pairwise
      (fun a b => a ≠ b)) := by
    rw [hkeys]
    intro hp
    exact (List.pairwise_cons.mp hp).1 "x" (by simp) rfl
  exact ⟨fun h => hlen h.2.2.2.2, hkeys, hdist, hlen⟩

/-- Witness for C1: the amended grouping theorem applied at the concrete
four-entity input, yielding the permutation fact and the key of the first
group member. -/
theorem c1_witness :
    (((iterate_synthase_types c1Input).map Prod.snd).flatten.Perm c1Input)
    ∧ exA.subtype = "x" := by
  refine ⟨(c1_grouping_amended c1Input).1, ?_⟩
  exact ((c1_grouping_amended c1Input).2.1 ("x", [exA, exB])
    (by rw [c1_eval]; exact List.mem_cons_self _ _)).2 exA (List.mem_cons_self _ _)

end Synthaser
